import Mathlib

/-!
# Verification of the cDAQ monitoring pipeline core

Shallow embedding of the fatigue / damage-accumulation pipeline of the
monitored-structure DAQ system:

* `backend/daq/analysis.py` — rainflow counting, ASME S-N curve,
  double integration to displacement, directional fatigue damage;
* `backend/daq/damage_logger.py` — persistent cumulative damage with
  backup/tmp/atomic-rename write protocol;
* `backend/daq/device.py` — the FIR decimator applied per chunk;
* `backend/daq/analysis_worker.py` — the per-window analysis loop.

Machine floats are modelled as exact rationals (`ℚ`) where the code is
pure arithmetic, and as reals (`ℝ`) where transcendental functions
(`log10`, `sin`, `cos`, powers) appear.  Python `float('inf')` is
modelled with `⊤` in `EReal` / `WithTop ℚ`.
-/

namespace CDAQ

/-! ## Rainflow cycle counting (`analysis.rainflow_ranges_counts`) -/

/-- Turning-point extraction of `rainflow_ranges_counts` (analysis.py
lines 73-80): keep `x[0]`, every interior point with
`(curr - prev) * (nxt - curr) ≤ 0`, and `x[-1]`.
`tpAux prev curr rest` walks the interior points. -/
def tpAux (prev curr : ℚ) : List ℚ → List ℚ
  | [] => [curr]
  | nxt :: rest =>
      (if (curr - prev) * (nxt - curr) ≤ 0 then [curr] else []) ++ tpAux curr nxt rest

/-- The full turning-point list.  For signals of length `< 2` the code never
builds it (guarded by the early return); those cases are immaterial. -/
def turningPoints : List ℚ → List ℚ
  | a :: b :: rest => a :: tpAux a b rest
  | l => l

/-- The inner `while len(stack) >= 3` loop of `rainflow_ranges_counts`
(analysis.py lines 88-97), on a stack `s2 :: s1 :: below` stored
top-first, so the code's `stack[-3], stack[-2], stack[-1]` are
`s0, s1, s2`; `stack.pop(-2)` removes `s1`, i.e. the loop continues on
`s2 :: s0 :: rest`.  Structural recursion on the part below the top two. -/
def collapseAux (s2 s1 : ℚ) : List ℚ → List ℚ → List ℚ × List ℚ
  | [], out => ([s2, s1], out)
  | s0 :: rest, out =>
      if |s1 - s0| ≤ |s2 - s1| then
        collapseAux s2 s0 rest (out ++ [|s1 - s0|])
      else (s2 :: s1 :: s0 :: rest, out)

/-- The collapse loop on a whole stack: a no-op while the stack has
fewer than 3 entries. -/
def collapse : List ℚ → List ℚ → List ℚ × List ℚ
  | s2 :: s1 :: below, out => collapseAux s2 s1 below out
  | st, out => (st, out)

/-- The outer `for v in tp` walk (analysis.py lines 86-97): push each
turning point, then run the collapse loop. -/
def rainflowWalk : List ℚ → List ℚ → List ℚ → List ℚ × List ℚ
  | [], stack, out => (stack, out)
  | v :: tps, stack, out =>
      let so := collapse (v :: stack) out
      rainflowWalk tps so.1 so.2

/-- Residual half-cycles from adjacent stack pairs (analysis.py lines
99-101), walking the stack bottom-to-top. -/
def pairRanges : List ℚ → List ℚ
  | a :: b :: rest => |b - a| :: pairRanges (b :: rest)
  | _ => []

/-- `rainflow_ranges_counts` (analysis.py lines 66-103).  Each emitted
range is paired with a count of `0.5`; the counts list is built alongside
the ranges, i.e. it is `0.5` repeated once per range. -/
def rainflow_ranges_counts (sig : List ℚ) : List ℚ × List ℚ :=
  if sig.length < 2 then ([], [])
  else
    let tp := turningPoints sig
    let so := rainflowWalk tp [] []
    let ranges := so.2 ++ pairRanges so.1.reverse
    (ranges, ranges.map fun _ => (1 : ℚ) / 2)

/-! ## Damage logger (`damage_logger.DamageLogger`) -/

/-- The JSON record persisted by `DamageLogger._write_cumulative`
(damage_logger.py lines 68-75).  The `timestamp` and `device` strings do
not affect any claim and are omitted; `dmax` and `phimax` are the derived
`D_cum_max` / `phi_deg_cum` fields. -/
structure FileRec where
  phi : List ℚ
  dmg : List ℚ
  dmax : ℚ
  phimax : ℚ
  deriving DecidableEq, Repr

/-- Contents of one on-disk file.  `corrupt` stands for any byte string
that does not parse as a JSON record (e.g. a truncated partial write). -/
inductive FileContent where
  | absent
  | corrupt
  | valid (r : FileRec)
  deriving DecidableEq, Repr

/-- The three paths touched by the write protocol:
`damage_cumulative.txt`, `damage_cumulative.bak`,
`damage_cumulative.txt.tmp`. -/
structure FileState where
  primary : FileContent
  backup : FileContent
  tmp : FileContent
  deriving DecidableEq, Repr

/-- Python `max(l)` guarded by `if l else 0.0`. -/
def pyMax : List ℚ → ℚ
  | [] => 0
  | a :: rest => rest.foldl max a

/-- `l.index(v)` for the first occurrence (used with `v = max(l)`,
guarded by nonemptiness in the code, `0` otherwise). -/
def pyIndex (l : List ℚ) (v : ℚ) : ℕ := l.indexOf v

/-- The payload assembled by `_write_cumulative` (damage_logger.py lines
68-75) from the in-memory `cum_phi` / `cum_damage`. -/
def payloadOf (phi dmg : List ℚ) : FileRec :=
  { phi := phi
    dmg := dmg
    dmax := pyMax dmg
    phimax := phi.getD (pyIndex dmg (pyMax dmg)) 0 }

/-- A point at which the process may crash inside `_write_cumulative`
(damage_logger.py lines 77-86).  `midBackup` / `midTmp` are crashes in
the middle of a `write_text`, leaving that file truncated (`corrupt`);
the final `tmp.replace(primary)` is an atomic rename, so a crash during
it behaves like `preRename` or `done`. -/
inductive CrashPoint where
  | preBackup
  | midBackup
  | preTmp
  | midTmp
  | preRename
  | done
  deriving DecidableEq, Repr

/-- `_write_cumulative` under a crash at `c`:
(1) best-effort copy of the current primary to the backup (only when the
primary exists — `if self.damage_file.exists()`), (2) write the new
payload to the `.tmp` file, (3) atomic rename `.tmp → primary`. -/
def writeCumulative (fs : FileState) (payload : FileRec) (c : CrashPoint) : FileState :=
  let fs1 := if fs.primary ≠ FileContent.absent then { fs with backup := fs.primary } else fs
  let fs2 := { fs1 with tmp := FileContent.valid payload }
  let fs3 := { fs2 with tmp := FileContent.absent, primary := FileContent.valid payload }
  match c with
  | CrashPoint.preBackup => fs
  | CrashPoint.midBackup =>
      if fs.primary ≠ FileContent.absent then { fs with backup := FileContent.corrupt } else fs
  | CrashPoint.preTmp => fs1
  | CrashPoint.midTmp => { fs1 with tmp := FileContent.corrupt }
  | CrashPoint.preRename => fs2
  | CrashPoint.done => fs3

/-- `_try_load_json` (damage_logger.py lines 31-37): `None` for a missing
file or one that fails to parse. -/
def tryLoadJson : FileContent → Option FileRec
  | FileContent.valid r => some r
  | _ => none

/-- `_default_bins` (damage_logger.py lines 24-29): `int(360 / dphi)`
bins with centers `0, dphi, 2·dphi, …` and zero damage. -/
def defaultBins (dphi : ℚ) : List ℚ × List ℚ :=
  let bins := (360 / dphi).floor.toNat
  let phi := (List.range bins).map fun (i : ℕ) => (i : ℚ) * dphi
  (phi, phi.map fun _ => (0 : ℚ))

/-- The `cum_damage` value established by `_init_cumulative`
(damage_logger.py lines 39-65): try the primary, fall back to the backup;
with loaded data, keep `D_phi_cum` only when both lists are nonempty and
of equal length, otherwise (and when nothing loads) fall back to the
default zero bins. -/
def loadedDmg (fs : FileState) (dphi : ℚ) : List ℚ :=
  let data :=
    match tryLoadJson fs.primary with
    | some r => some r
    | none => tryLoadJson fs.backup
  match data with
  | some r =>
      if r.phi ≠ [] ∧ r.dmg ≠ [] then
        if r.phi.length = r.dmg.length then r.dmg else (defaultBins dphi).2
      else (defaultBins dphi).2
  | none => (defaultBins dphi).2

/-- In-memory state of a `DamageLogger`: `cum_phi`, `cum_damage`, and the
three files.  (`cum_timestamp` and the device name affect no claim.) -/
structure LoggerState where
  phi : List ℚ
  dmg : List ℚ
  fs : FileState
  deriving DecidableEq, Repr

/-- The fatigue dict fields read and written by `update_cumulative`.
A missing `phi_deg_list` / `D_phi` key is modelled as the empty list,
since `fatigue.get(...) or []` collapses both cases; the three cumulative
fields are `none` while the keys are absent. -/
structure Fatigue where
  phi_deg_list : List ℚ
  D_phi : List ℚ
  D_phi_cum : Option (List ℚ) := none
  D_cum_max : Option ℚ := none
  phi_deg_cum : Option ℚ := none
  deriving DecidableEq, Repr

/-- Python `%` on a positive modulus (floored remainder). -/
def pymod (a b : ℚ) : ℚ := a - b * ⌊a / b⌋

/-- Circular angular distance of `update_cumulative`
(damage_logger.py line 109): `abs(((p - new_phi + 180.0) % 360.0) - 180.0)`. -/
def circDist (p nphi : ℚ) : ℚ := |pymod (p - nphi + 180) 360 - 180|

/-- The inner argmin scan of the remap loop (damage_logger.py lines
106-112): `best_j` starts at 0 with `best_dist = inf`, updated on strict
decrease. -/
def argminCirc (oldPhi : List ℚ) (nphi : ℚ) : ℕ :=
  (oldPhi.enum.foldl
    (fun best jp =>
      if (circDist jp.2 nphi : WithTop ℚ) < best.2
      then (jp.1, (circDist jp.2 nphi : WithTop ℚ)) else best)
    ((0 : ℕ), (⊤ : WithTop ℚ))).1

/-- Bin remapping of `update_cumulative` (damage_logger.py lines 98-116):
start from zeros over the new layout and, when the old layout is usable,
copy each new bin from the circularly nearest old bin. -/
def remapBins (oldPhi oldDmg newPhi : List ℚ) : List ℚ :=
  if oldPhi ≠ [] ∧ oldDmg ≠ [] ∧ oldPhi.length = oldDmg.length then
    newPhi.map fun nphi => oldDmg.getD (argminCirc oldPhi nphi) 0
  else newPhi.map fun _ => (0 : ℚ)

/-- `update_cumulative` (damage_logger.py lines 88-130), with the write
protocol crashing at `c` (`CrashPoint.done` is the normal, completed
call).  Returns the new logger state and the mutated fatigue dict. -/
def updateCumulative (st : LoggerState) (f : Fatigue) (c : CrashPoint) :
    LoggerState × Fatigue :=
  let phiList := f.phi_deg_list
  let dList := f.D_phi
  if phiList = [] ∨ dList = [] then (st, f)
  else
    let pd :=
      if st.dmg.length ≠ dList.length ∨ st.phi.length ≠ phiList.length then
        (phiList, remapBins st.phi st.dmg phiList)
      else (st.phi, st.dmg)
    let dmg2 := List.zipWith (· + ·) pd.2 dList
    let dmax := pyMax dmg2
    let idx := pyIndex dmg2 dmax
    let phiCum := pd.1.getD idx 0
    let f' := { f with
      D_phi_cum := some dmg2
      D_cum_max := some dmax
      phi_deg_cum := some phiCum }
    let fs' := writeCumulative st.fs (payloadOf pd.1 dmg2) c
    ({ phi := pd.1, dmg := dmg2, fs := fs' }, f')

/-! ## ASME S-N curve (`analysis.asme_sn_cycles`) -/

/-- The high-cycle polynomial branch of `asme_sn_cycles`
(analysis.py lines 116-124). -/
noncomputable def asmeXhigh (Y : ℝ) : ℝ :=
  -4706.5245 + 1813.6228 * Y + 6785.5644 / Y - 368.12404 * Y ^ 2
    - 5133.7345 / Y ^ 2 + 30.708204 * Y ^ 3 + 1596.1916 / Y ^ 3

/-- The rational branch of `asme_sn_cycles` (analysis.py lines 126-128). -/
noncomputable def asmeXlow (Y : ℝ) : ℝ :=
  (38.1309 - 60.1705 * Y ^ 2 + 25.0352 * Y ^ 4) /
    (1 + 1.80224 * Y ^ 2 - 4.68904 * Y ^ 4 + 2.26536 * Y ^ 6)

/-- The exponent `X` computed by `asme_sn_cycles` for `Sa > 0`:
`Y = log10(28300·Sa/et)`, high branch when `10^Y ≥ 20`. -/
noncomputable def asmeX (Sa et : ℝ) : ℝ :=
  let Y := Real.logb 10 (28300 * Sa / et)
  if 20 ≤ (10 : ℝ) ^ Y then asmeXhigh Y else asmeXlow Y

/-- `asme_sn_cycles` (analysis.py lines 106-129): `math.inf` for
`Sa ≤ 0`, otherwise `10^X` cycles to failure. -/
noncomputable def asme_sn_cycles (Sa et : ℝ) : EReal :=
  if Sa ≤ 0 then ⊤ else (((10 : ℝ) ^ asmeX Sa et : ℝ) : EReal)

/-- Python float division `n / Ni` where `Ni` may be infinite: a finite
float divided by `±inf` is `0`. -/
noncomputable def pydivFin (n : ℝ) (Ni : EReal) : ℝ :=
  if Ni = ⊤ ∨ Ni = ⊥ then 0 else n / Ni.toReal

/-- One step of the per-bin Miner sum of `fatigue_damage` (analysis.py
lines 168-175): skip `Sa ≤ 0`, skip `Sa` outside `[48, 3999]`, otherwise
add `n / Ni` when `Ni` is truthy (`≠ 0`) and `> 0`. -/
noncomputable def dkStep (et : ℝ) (acc : ℝ) (sn : ℝ × ℝ) : ℝ :=
  if sn.1 ≤ 0 then acc
  else if sn.1 < 48 ∨ 3999 < sn.1 then acc
  else
    let Ni := asme_sn_cycles sn.1 et
    if Ni ≠ 0 ∧ 0 < Ni then acc + pydivFin sn.2 Ni else acc

/-- The per-bin damage `Dk` of `fatigue_damage` (analysis.py lines
166-176): `Sa = ranges / 2`, then the guarded sum over `zip(Sa, counts)`. -/
noncomputable def binDamage (et : ℝ) (ranges counts : List ℝ) : ℝ :=
  ((ranges.map fun r => r / 2).zip counts).foldl (dkStep et) 0

/-! ## Directional bin layout of `fatigue_damage` (analysis.py 148-150, 198) -/

/-- `np.arange(start, stop, step)` over exact reals: `start + i·step` for
`0 ≤ i < ⌈(stop - start)/step⌉`. -/
noncomputable def arangeReal (start stop step : ℝ) : List ℝ :=
  (List.range (⌈(stop - start) / step⌉).toNat).map fun (i : ℕ) => start + (i : ℝ) * step

/-- Bin centers of `fatigue_damage` (analysis.py lines 148-150), in
radians: `dphi = radians(5) = π/36`,
`phi_edges = arange(0, 2π + dphi, dphi)`,
`phi_center = phi_edges[:-1] + dphi/2`. -/
noncomputable def fatiguePhiCenter : List ℝ :=
  let dphi := Real.pi / 36
  let phiEdges := arangeReal 0 (2 * Real.pi + dphi) dphi
  phiEdges.dropLast.map fun x => x + dphi / 2

/-- The `phi_deg_list` field of `fatigue_damage`'s result
(analysis.py line 198): `phi_center * 180 / π`. -/
noncomputable def fatiguePhiDegList : List ℝ :=
  fatiguePhiCenter.map fun x => x * 180 / Real.pi

/-! ## Decimator (`device.DAQDevice`) -/

/-- `np.sinc` (normalized): `sin(πx)/(πx)` with value `1` at `0`. -/
noncomputable def npSinc (x : ℝ) : ℝ :=
  if x = 0 then 1 else Real.sin (Real.pi * x) / (Real.pi * x)

/-- `np.hanning M`: `0.5 - 0.5·cos(2πn/(M-1))` for `n < M`
(`[1]` when `M = 1`, `[]` when `M = 0`). -/
noncomputable def npHanning (M : ℕ) : List ℝ :=
  if M = 1 then [1]
  else (List.range M).map fun (n : ℕ) => 1 / 2 - 1 / 2 * Real.cos (2 * Real.pi * (n : ℝ) / ((M : ℝ) - 1))

/-- The tap count of `_build_decimation_kernel` (device.py lines
200-202): `taps = max(31, decimation·8 + 1)`, incremented if even. -/
def tapsOf (decimation : ℕ) : ℕ :=
  let t := max 31 (decimation * 8 + 1)
  if t % 2 = 0 then t + 1 else t

/-- The windowed-sinc kernel of `_build_decimation_kernel` (device.py
lines 193-208), for `decimation > 1`.  `float(sample_rate or 1)` and
`float(effective_sample_rate or fs_in)` treat `0` as falsy. -/
noncomputable def decimKernelList (decimation : ℕ) (sampleRate effRate : ℝ) : List ℝ :=
  let fsIn := if sampleRate = 0 then 1 else sampleRate
  let fsOut := if effRate = 0 then fsIn else effRate
  let cutoffHz := 0.45 * (fsOut / 2)
  let fc := max 0.001 (min (cutoffHz / fsIn) 0.49)
  let taps := tapsOf decimation
  let m := ((taps : ℝ) - 1) / 2
  let h0 := (List.range taps).map fun (n : ℕ) => 2 * fc * npSinc (2 * fc * ((n : ℝ) - m))
  let h1 := List.zipWith (· * ·) h0 (npHanning taps)
  h1.map fun x => x / h1.sum

/-- `_build_decimation_kernel` returns `None` when `decimation ≤ 1`. -/
noncomputable def buildDecimationKernel (decimation : ℕ) (sampleRate effRate : ℝ) :
    Option (List ℝ) :=
  if decimation ≤ 1 then none else some (decimKernelList decimation sampleRate effRate)

/-- `np.convolve(x, h, mode="valid")` for `|x| ≥ |h|`: output `i` is
`Σ_{j<|h|} h[j] · x[i + |h| - 1 - j]`, `|x| - |h| + 1` outputs. -/
noncomputable def convValid (x h : List ℝ) : List ℝ :=
  (List.range (x.length + 1 - h.length)).map fun (i : ℕ) =>
    ∑ j ∈ Finset.range h.length, h.getD j 0 * x.getD (i + h.length - 1 - j) 0

/-- Python slice `l[::M]` for `M ≥ 1`: every `M`-th element from index 0. -/
def everyNth {α : Type*} : List α → ℕ → List α
  | [], _ => []
  | a :: rest, M => a :: everyNth (rest.drop (M - 1)) M
  termination_by l _ => l.length
  decreasing_by simp; omega

/-- One channel of `_on_samples` (device.py lines 113-132) when
`decimation > 1` and the kernel was built: re-pad the stored state when
its length is off (`pad_len = max(0, len(kernel) - 1)`), prepend it to
the chunk, valid-convolve, store the padded input's tail as the new
state (when `pad_len > 0`), and keep every `M`-th filtered sample. -/
noncomputable def onSamplesChan (kernel : List ℝ) (M : ℕ) (state arr : List ℝ) :
    List ℝ × List ℝ :=
  let padLen := kernel.length - 1
  let st := if state.length ≠ padLen then List.replicate padLen (0 : ℝ) else state
  let x := st ++ arr
  let filt := convValid x kernel
  let newState := if 0 < padLen then x.drop (x.length - padLen) else state
  (everyNth filt M, newState)

/-! ## Double integration (`analysis.acc_to_disp`) -/

/-- `np.mean` as exact arithmetic (callers guard the empty case). -/
def npMean {α : Type*} [DivisionRing α] (l : List α) : α := l.sum / (l.length : α)

/-- `np.cumsum`. -/
def npCumsum {α : Type*} [AddCommMonoid α] (l : List α) : List α :=
  (l.scanl (· + ·) 0).tail

/-- `np.polyfit(t, u, 1)` over `t = 0, …, N-1` as the least-squares line
`(slope, intercept)`.  For `N = 1` the system is rank-deficient and the
zero-residual fit through the single point is what both the formula
(via the `0 / 0 = 0` convention) and the minimum-norm solution give. -/
def polyfitLin {α : Type*} [Field α] (u : List α) : α × α :=
  let t := (List.range u.length).map fun (i : ℕ) => (i : α)
  let tbar := npMean t
  let ubar := npMean u
  let sxx := (t.map fun x => (x - tbar) ^ 2).sum
  let sxy := (List.zipWith (fun x y => (x - tbar) * (y - ubar)) t u).sum
  let slope := sxy / sxx
  (slope, ubar - slope * tbar)

/-- The linear detrend used by both integration methods (analysis.py
lines 31-34 and 51-53): subtract `p₀·t + p₁`. -/
def detrendLin {α : Type*} [Field α] (u : List α) : List α :=
  let p := polyfitLin u
  List.zipWith (fun ui ti => ui - (p.1 * ti + p.2)) u
    ((List.range u.length).map fun (i : ℕ) => (i : α))

/-- `_acc_to_disp_time` (analysis.py lines 38-54) over an exact ordered
field: de-mean, integrate twice with division by `fs`, detrend. -/
def accToDispTime {α : Type*} [LinearOrderedField α] (acc : List α) (fs : α) : List α :=
  if acc = [] then acc
  else if fs ≤ 0 then acc
  else
    let a := acc.map fun v => v - npMean acc
    let vel := (npCumsum a).map fun v => v / fs
    let vel2 := vel.map fun v => v - npMean vel
    let disp := (npCumsum vel2).map fun v => v / fs
    detrendLin disp

/-- The discrete Fourier transform `np.fft.fft`. -/
noncomputable def dft (a : List ℂ) : List ℂ :=
  (List.range a.length).map fun (k : ℕ) =>
    ∑ n ∈ Finset.range a.length,
      a.getD n 0 * Complex.exp (-2 * Real.pi * Complex.I * k * n / a.length)

/-- `np.fft.ifft`. -/
noncomputable def idft (A : List ℂ) : List ℂ :=
  (List.range A.length).map fun (n : ℕ) =>
    (∑ k ∈ Finset.range A.length,
      A.getD k 0 * Complex.exp (2 * Real.pi * Complex.I * k * n / A.length)) / A.length

/-- `_acc_to_disp_fft` (analysis.py lines 6-35).  The frequency axis is
`f[k] = k·fs/N` and `ω[k] = 2π·f[k]`; entries with `ω < 2π·0.05` and the
DC bin get `ω = inf`, making `U[k] = -A[k]/ω² = 0` there (numpy complex
division by `inf`); the displacement is `Re(IFFT(U))`, detrended. -/
noncomputable def accToDispFft (acc : List ℝ) (fs : ℝ) : List ℝ :=
  if acc = [] then acc
  else if fs ≤ 0 then acc
  else
    let N := acc.length
    let A := dft (acc.map fun x => (x : ℂ))
    let U := (List.range N).map fun (k : ℕ) =>
      if 2 * Real.pi * ((k : ℝ) * fs / N) < 2 * Real.pi * 0.05 ∨ k = 0 then (0 : ℂ)
      else -(A.getD k 0) / (((2 * Real.pi * ((k : ℝ) * fs / N) : ℝ) : ℂ)) ^ 2
    let u := (idft U).map Complex.re
    detrendLin u

/-- ASCII `str.lower()` for the method strings. -/
def pyLowerChar (c : Char) : Char :=
  if 'A' ≤ c ∧ c ≤ 'Z' then Char.ofNat (c.toNat + 32) else c

/-- ASCII `str.lower()`. -/
def pyLower (s : String) : String := String.mk (s.data.map pyLowerChar)

/-- `acc_to_disp` (analysis.py lines 57-63): the time method when
`method and str(method).lower() == "time"` (an empty string is falsy),
otherwise the FFT method. -/
noncomputable def accToDisp (acc : List ℝ) (fs : ℝ) (method : String) : List ℝ :=
  if method ≠ "" ∧ pyLower method = "time" then accToDispTime acc fs
  else accToDispFft acc fs

/-! ## Analysis worker window boundary (`analysis_worker.AnalysisWorker._loop`) -/

/-- One per-channel window-statistics dict of `AnalysisWorker`
(analysis_worker.py line 58): `min` starts at `inf`, `max` at `-inf`. -/
structure StatRec where
  statMin : WithTop ℚ
  statMax : WithBot ℚ
  sumsq : ℚ
  count : ℕ
  deriving DecidableEq, Repr

/-- Keyword parameters accepted by `DamageLogger.write_window`
(damage_logger.py line 146). -/
def writeWindowParams : List String :=
  ["device_name", "stats", "fatigue", "start_ts"]

/-- Keyword arguments supplied at the `write_window` call site in
`AnalysisWorker._loop` (analysis_worker.py lines 176-182). -/
def writeWindowCallKeywords : List String :=
  ["device_name", "stats", "disp_stats", "fatigue", "start_ts"]

/-- Python keyword-call semantics: the call raises `TypeError` unless
every supplied keyword names a parameter of the callee. -/
def callOk (callKw params : List String) : Prop := ∀ kw ∈ callKw, kw ∈ params

instance (callKw params : List String) : Decidable (callOk callKw params) := by
  unfold callOk; infer_instance

/-- The `AnalysisWorker` state touched by a window boundary: the window
accumulators `log_stats` / `analysis_buffers`, the number of configured
channels (`channels_cfg`), the last fatigue snapshot, the damage logger,
and a count of completed CSV row-set writes. -/
structure WorkerState where
  logStats : List StatRec
  analysisBuffers : List (List ℚ)
  channelsCfg : ℕ
  lastFatigue : Option Fatigue
  logger : LoggerState
  csvWrites : ℕ
  deriving DecidableEq, Repr

/-- The window-boundary block of `_loop` (analysis_worker.py lines
145-215), entered when `now - log_window_start ≥ log_interval`.

The fatigue computation (lines 149-168) is wrapped in `try/except`: its
outcome is the parameter `fatigueOutcome` — `some f` when
`fatigue_damage` returned the dict `f` (then `update_cumulative` runs
and `last_fatigue` is replaced), `none` when it raised (the exception is
caught and logged, `fatigue` stays `None`).  The `disp_stats` block
(lines 171-174) is likewise guarded and cannot escape.

The `write_window` call (lines 176-182) is NOT guarded: per Python call
semantics it raises `TypeError` if it passes a keyword the callee does
not accept, and such an exception escapes `_loop`, terminating the
worker thread before the CSV write and before the accumulators are
cleared (lines 214-215). -/
def windowBoundary (st : WorkerState) (fatigueOutcome : Option Fatigue) :
    Except String WorkerState :=
  let st1 :=
    match fatigueOutcome with
    | some f =>
        let lf := updateCumulative st.logger f CrashPoint.done
        { st with logger := lf.1, lastFatigue := some lf.2 }
    | none => st
  if callOk writeWindowCallKeywords writeWindowParams then
    Except.ok
      { st1 with
        csvWrites := st1.csvWrites + 1
        logStats := []
        analysisBuffers :=
          List.replicate (if st1.channelsCfg = 0 then 2 else st1.channelsCfg) [] }
  else
    Except.error "TypeError: write_window() got an unexpected keyword argument 'disp_stats'"

/-! ## Well-formedness predicates used by the persistence claims -/

/-- A logger state as established by `DamageLogger.__init__` /
`_init_cumulative` and maintained by completed updates: nonempty bin
lists of equal length, with the primary file holding exactly the payload
of the in-memory state. -/
def wfLogger (st : LoggerState) : Prop :=
  st.phi ≠ [] ∧ st.dmg ≠ [] ∧ st.phi.length = st.dmg.length ∧
    st.fs.primary = FileContent.valid (payloadOf st.phi st.dmg)

instance (st : LoggerState) : Decidable (wfLogger st) := by
  unfold wfLogger; infer_instance

/-- An update whose `phi_deg_list` and `D_phi` agree in length (as the
dicts produced by `fatigue_damage` always do). -/
def wfFatigue (f : Fatigue) : Prop := f.phi_deg_list.length = f.D_phi.length

instance (f : Fatigue) : Decidable (wfFatigue f) := by
  unfold wfFatigue; infer_instance

/-- A completed (crash-free) `update_cumulative` call, state part. -/
def updStep (st : LoggerState) (f : Fatigue) : LoggerState :=
  (updateCumulative st f CrashPoint.done).1

/-- The `(cum_phi, cum_damage)` pair `update_cumulative` works with
after the optional remap (damage_logger.py lines 97-116), named for use
in lemma statements. -/
def updPhiDmg (st : LoggerState) (f : Fatigue) : List ℚ × List ℚ :=
  if st.dmg.length ≠ f.D_phi.length ∨ st.phi.length ≠ f.phi_deg_list.length then
    (f.phi_deg_list, remapBins st.phi st.dmg f.phi_deg_list)
  else (st.phi, st.dmg)

/-! ## Helper lemmas -/

theorem updateCumulative_eq_of_empty (st : LoggerState) (f : Fatigue) (c : CrashPoint)
    (h : f.phi_deg_list = [] ∨ f.D_phi = []) :
    updateCumulative st f c = (st, f) := by
  unfold updateCumulative
  rw [if_pos h]

theorem getD_nonneg {l : List ℚ} (h : ∀ x ∈ l, 0 ≤ x) (i : ℕ) : 0 ≤ l.getD i 0 := by
  induction l generalizing i with
  | nil => simp [List.getD]
  | cons a rest ih =>
      cases i with
      | zero => simpa using h a (by simp)
      | succ j =>
          simpa using ih (fun x hx => h x (by simp [hx])) j

theorem getD_zipWith_add (a b : List ℚ) (h : a.length = b.length) (i : ℕ) :
    (List.zipWith (· + ·) a b).getD i 0 = a.getD i 0 + b.getD i 0 := by
  induction a generalizing b i with
  | nil =>
      cases b with
      | nil => simp [List.getD]
      | cons y ys => simp at h
  | cons x xs ih =>
      cases b with
      | nil => simp at h
      | cons y ys =>
          cases i with
          | zero => simp
          | succ j => simpa using ih ys (by simpa using h) j

/-! ## C10 — no-op frame of `update_cumulative` -/

/-- C10: if the fatigue dict passed to `DamageLogger.update_cumulative`
has a missing-or-empty `phi_deg_list` or a missing-or-empty `D_phi`, the
call returns the input dict unchanged and modifies neither the in-memory
cumulative state nor any persistence file. -/
theorem update_cumulative_noop_frame (st : LoggerState) (f : Fatigue) (c : CrashPoint)
    (h : f.phi_deg_list = [] ∨ f.D_phi = []) :
    updateCumulative st f c = (st, f) :=
  updateCumulative_eq_of_empty st f c h

/-- Witness for C10 at a concrete logger state and a fatigue dict with an
empty `D_phi`. -/
theorem update_cumulative_noop_frame_witness :
    ((⟨[0], [], none, none, none⟩ : Fatigue).phi_deg_list = [] ∨
      (⟨[0], [], none, none, none⟩ : Fatigue).D_phi = []) ∧
    updateCumulative ⟨[0, 5], [1, 2], ⟨.absent, .absent, .absent⟩⟩
        ⟨[0], [], none, none, none⟩ CrashPoint.midTmp =
      (⟨[0, 5], [1, 2], ⟨.absent, .absent, .absent⟩⟩, ⟨[0], [], none, none, none⟩) :=
  ⟨Or.inr rfl,
    update_cumulative_noop_frame ⟨[0, 5], [1, 2], ⟨.absent, .absent, .absent⟩⟩
      ⟨[0], [], none, none, none⟩ CrashPoint.midTmp (Or.inr rfl)⟩

/-! ## C4 — window-boundary error handling of the analysis worker -/

/-- C4 (code bug): the claim says errors at a window boundary are caught
per window, a CSV row set is written, and the accumulators are cleared so
the loop continues.  In the code, the `write_window` call in
`AnalysisWorker._loop` passes the keyword `disp_stats`, which
`DamageLogger.write_window` does not accept, so every window boundary
raises an uncaught `TypeError` before the CSV write and before the
accumulators are cleared, terminating the worker loop. -/
theorem analysis_window_write_window_type_error (st : WorkerState) (fo : Option Fatigue) :
    ¬ callOk writeWindowCallKeywords writeWindowParams ∧
    windowBoundary st fo =
      Except.error "TypeError: write_window() got an unexpected keyword argument 'disp_stats'" := by
  have h : ¬ callOk writeWindowCallKeywords writeWindowParams := by decide
  refine ⟨h, ?_⟩
  unfold windowBoundary
  rw [if_neg h]

/-! ## C3 — per-bin monotonicity of cumulative damage -/

/-- C3 (amended): for every `update_cumulative` call whose incoming
`D_phi` has the same length as the stored `D_phi_cum` AND whose incoming
`phi_deg_list` has the same length as the stored layout (so the
bin-remapping branch is not taken), with all incoming entries and all
stored entries non-negative, every bin satisfies
`D_phi_cum_after[b] ≥ D_phi_cum_before[b]` and stays `≥ 0`.  (The
original claim, which constrains only the `D_phi` length, fails on the
remap path — see the counterexample.) -/
theorem update_cumulative_monotone (st : LoggerState) (f : Fatigue)
    (hphi : st.phi.length = f.phi_deg_list.length)
    (hd : st.dmg.length = f.D_phi.length)
    (hnn : ∀ x ∈ f.D_phi, 0 ≤ x) (hnn0 : ∀ x ∈ st.dmg, 0 ≤ x) :
    ∀ i : ℕ,
      st.dmg.getD i 0 ≤ ((updateCumulative st f CrashPoint.done).1).dmg.getD i 0 ∧
      0 ≤ ((updateCumulative st f CrashPoint.done).1).dmg.getD i 0 := by
  intro i
  unfold updateCumulative
  by_cases hemp : f.phi_deg_list = [] ∨ f.D_phi = []
  · rw [if_pos hemp]
    exact ⟨le_refl _, getD_nonneg hnn0 i⟩
  · rw [if_neg hemp]
    have hcond : ¬ (st.dmg.length ≠ f.D_phi.length ∨ st.phi.length ≠ f.phi_deg_list.length) := by
      push_neg
      exact ⟨hd, hphi⟩
    simp only [hcond, if_neg, ite_false, if_false]
    have hz := getD_zipWith_add st.dmg f.D_phi hd i
    constructor
    · simp only [hz]
      have := getD_nonneg hnn i
      linarith
    · simp only [hz]
      have h1 := getD_nonneg hnn i
      have h2 := getD_nonneg hnn0 i
      linarith

unseal Rat.sub Rat.add Rat.mul Rat.inv in
/-- Witness for C3 at a concrete state and update. -/
theorem update_cumulative_monotone_witness :
    (([0, 180] : List ℚ).length = ([0, 180] : List ℚ).length) ∧
    (([1, 2] : List ℚ).length = ([3, 0] : List ℚ).length) ∧
    (∀ x ∈ (⟨[0, 180], [3, 0], none, none, none⟩ : Fatigue).D_phi, 0 ≤ x) ∧
    (∀ x ∈ (⟨[0, 180], [1, 2], ⟨.absent, .absent, .absent⟩⟩ : LoggerState).dmg, 0 ≤ x) ∧
    (∀ i : ℕ,
      (⟨[0, 180], [1, 2], ⟨.absent, .absent, .absent⟩⟩ : LoggerState).dmg.getD i 0 ≤
        ((updateCumulative ⟨[0, 180], [1, 2], ⟨.absent, .absent, .absent⟩⟩
            ⟨[0, 180], [3, 0], none, none, none⟩ CrashPoint.done).1).dmg.getD i 0 ∧
      0 ≤ ((updateCumulative ⟨[0, 180], [1, 2], ⟨.absent, .absent, .absent⟩⟩
            ⟨[0, 180], [3, 0], none, none, none⟩ CrashPoint.done).1).dmg.getD i 0) :=
  ⟨rfl, rfl, by decide, by decide,
    update_cumulative_monotone ⟨[0, 180], [1, 2], ⟨.absent, .absent, .absent⟩⟩
      ⟨[0, 180], [3, 0], none, none, none⟩ rfl rfl (by decide) (by decide)⟩

unseal Rat.sub Rat.add Rat.mul Rat.inv in
/-- Counterexample to C3 as stated: the stored state has
`D_phi_cum = [0, 5]` over `phi_deg_list = [0, 180]`; the incoming dict
has `D_phi = [0, 0]` (same length 2 as the stored `D_phi_cum`, all
entries non-negative) but a 3-bin `phi_deg_list`, so the remap branch
runs and bin 1 drops from `5` to `0`. -/
theorem update_cumulative_monotone_cex :
    ((⟨[0, 180], [0, 5], ⟨.absent, .absent, .absent⟩⟩ : LoggerState).dmg.length =
        (⟨[180, 0, 90], [0, 0], none, none, none⟩ : Fatigue).D_phi.length) ∧
    (∀ x ∈ (⟨[180, 0, 90], [0, 0], none, none, none⟩ : Fatigue).D_phi, 0 ≤ x) ∧
    ¬ ((⟨[0, 180], [0, 5], ⟨.absent, .absent, .absent⟩⟩ : LoggerState).dmg.getD 1 0 ≤
        ((updateCumulative ⟨[0, 180], [0, 5], ⟨.absent, .absent, .absent⟩⟩
            ⟨[180, 0, 90], [0, 0], none, none, none⟩ CrashPoint.done).1).dmg.getD 1 0) := by
  decide

/-! ## C2 — rainflow half-cycle accounting -/

theorem collapseAux_length (l : List ℚ) : ∀ (s2 s1 : ℚ) (out : List ℚ),
    ((collapseAux s2 s1 l out).1).length + ((collapseAux s2 s1 l out).2).length =
      l.length + 2 + out.length := by
  induction l with
  | nil => intro s2 s1 out; simp [collapseAux]
  | cons s0 rest ih =>
      intro s2 s1 out
      rw [collapseAux]
      split
      · have h := ih s2 s0 (out ++ [|s1 - s0|])
        simp only [List.length_append, List.length_cons, List.length_nil] at h ⊢
        omega
      · simp only [List.length_cons]

theorem collapseAux_fst_ne_nil (l : List ℚ) : ∀ (s2 s1 : ℚ) (out : List ℚ),
    (collapseAux s2 s1 l out).1 ≠ [] := by
  induction l with
  | nil => intro s2 s1 out; simp [collapseAux]
  | cons s0 rest ih =>
      intro s2 s1 out
      rw [collapseAux]
      split
      · exact ih s2 s0 (out ++ [|s1 - s0|])
      · simp

theorem collapse_length (st out : List ℚ) :
    ((collapse st out).1).length + ((collapse st out).2).length = st.length + out.length := by
  match st with
  | [] => simp [collapse]
  | [a] => simp [collapse]
  | a :: b :: below =>
      have h := collapseAux_length below a b out
      simp only [collapse, List.length_cons] at h ⊢
      omega

theorem collapse_fst_ne_nil (st out : List ℚ) (h : st ≠ []) : (collapse st out).1 ≠ [] := by
  match st with
  | [] => exact absurd rfl h
  | [a] => simp [collapse]
  | a :: b :: below =>
      simpa only [collapse] using collapseAux_fst_ne_nil below a b out

theorem rainflowWalk_length (tps : List ℚ) : ∀ st out : List ℚ,
    ((rainflowWalk tps st out).1).length + ((rainflowWalk tps st out).2).length =
      tps.length + st.length + out.length := by
  induction tps with
  | nil => intro st out; simp [rainflowWalk]
  | cons v tps ih =>
      intro st out
      rw [rainflowWalk]
      have hc := collapse_length (v :: st) out
      have hw := ih (collapse (v :: st) out).1 (collapse (v :: st) out).2
      simp only [List.length_cons] at hc hw ⊢
      omega

theorem rainflowWalk_fst_ne_nil (tps : List ℚ) : ∀ st out : List ℚ,
    st ≠ [] ∨ tps ≠ [] → (rainflowWalk tps st out).1 ≠ [] := by
  induction tps with
  | nil =>
      intro st out h
      rcases h with h | h
      · simpa [rainflowWalk] using h
      · exact absurd rfl h
  | cons v tps ih =>
      intro st out _
      rw [rainflowWalk]
      exact ih _ _ (Or.inl (collapse_fst_ne_nil (v :: st) out (by simp)))

theorem pairRanges_length (l : List ℚ) : (pairRanges l).length = l.length - 1 := by
  induction l with
  | nil => simp [pairRanges]
  | cons a t ih =>
      cases t with
      | nil => simp [pairRanges]
      | cons b t2 =>
          rw [pairRanges]
          simp only [List.length_cons] at ih ⊢
          omega

theorem rainflow_eq (sig : List ℚ) (h : ¬ sig.length < 2) :
    rainflow_ranges_counts sig =
      ((rainflowWalk (turningPoints sig) [] []).2 ++
          pairRanges (rainflowWalk (turningPoints sig) [] []).1.reverse,
        ((rainflowWalk (turningPoints sig) [] []).2 ++
          pairRanges (rainflowWalk (turningPoints sig) [] []).1.reverse).map
            fun _ => (1 : ℚ) / 2) := by
  rw [rainflow_ranges_counts, if_neg h]

theorem map_const_half_sum (l : List ℚ) :
    (l.map fun _ => (1 : ℚ) / 2).sum = (l.length : ℚ) * (1 / 2) := by
  induction l with
  | nil => simp
  | cons x xs ih => simp [ih]; ring

/-- C2: for every input signal of length at least 2,
`rainflow_ranges_counts` returns two equal-length lists, every count is
`0.5`, and the counts sum to exactly `(#turning points − 1) / 2`, the
turning points being `x[0]`, interior points with
`(x[i]−x[i−1])·(x[i+1]−x[i]) ≤ 0`, and `x[-1]`. -/
theorem rainflow_halfcycle_count (sig : List ℚ) (h : 2 ≤ sig.length) :
    (rainflow_ranges_counts sig).1.length = (rainflow_ranges_counts sig).2.length ∧
    (∀ c ∈ (rainflow_ranges_counts sig).2, c = 1 / 2) ∧
    (rainflow_ranges_counts sig).2.sum = (((turningPoints sig).length : ℚ) - 1) / 2 := by
  have hnot : ¬ sig.length < 2 := by omega
  have htpne : turningPoints sig ≠ [] := by
    match sig, h with
    | a :: b :: rest, _ => simp [turningPoints]
  rw [rainflow_eq sig hnot]
  have hwl := rainflowWalk_length (turningPoints sig) [] []
  have hwn := rainflowWalk_fst_ne_nil (turningPoints sig) [] [] (Or.inr htpne)
  have hstack : 1 ≤ (rainflowWalk (turningPoints sig) [] []).1.length := by
    cases hh : (rainflowWalk (turningPoints sig) [] []).1 with
    | nil => exact absurd hh hwn
    | cons x xs => simp [hh]
  have hpr := pairRanges_length (rainflowWalk (turningPoints sig) [] []).1.reverse
  have hlen : ((rainflowWalk (turningPoints sig) [] []).2 ++
      pairRanges (rainflowWalk (turningPoints sig) [] []).1.reverse).length =
      (turningPoints sig).length - 1 := by
    simp only [List.length_append, List.length_reverse, List.length_nil] at hpr hwl ⊢
    omega
  refine ⟨by simp, by simp, ?_⟩
  rw [map_const_half_sum, hlen]
  have h1 : 1 ≤ (turningPoints sig).length := by
    simp only [List.length_nil] at hwl
    omega
  rw [Nat.cast_sub h1]
  push_cast
  ring

/-- Witness for C2 on the signal `[0, 1, 0, 1]` (4 turning points,
3 half-cycles). -/
theorem rainflow_halfcycle_count_witness :
    2 ≤ ([0, 1, 0, 1] : List ℚ).length ∧
    ((rainflow_ranges_counts [0, 1, 0, 1]).1.length =
        (rainflow_ranges_counts [0, 1, 0, 1]).2.length ∧
      (∀ c ∈ (rainflow_ranges_counts [0, 1, 0, 1]).2, c = 1 / 2) ∧
      (rainflow_ranges_counts [0, 1, 0, 1]).2.sum =
        (((turningPoints ([0, 1, 0, 1] : List ℚ)).length : ℚ) - 1) / 2) :=
  ⟨by decide, rainflow_halfcycle_count [0, 1, 0, 1] (by decide)⟩

/-! ## C1 — crash-safe persistence of cumulative damage -/

theorem updateCumulative_eq (st : LoggerState) (f : Fatigue) (c : CrashPoint)
    (h1 : f.phi_deg_list ≠ []) (h2 : f.D_phi ≠ []) :
    updateCumulative st f c =
      ({ phi := (updPhiDmg st f).1,
         dmg := List.zipWith (· + ·) (updPhiDmg st f).2 f.D_phi,
         fs := writeCumulative st.fs
           (payloadOf (updPhiDmg st f).1
             (List.zipWith (· + ·) (updPhiDmg st f).2 f.D_phi)) c },
       { f with
         D_phi_cum := some (List.zipWith (· + ·) (updPhiDmg st f).2 f.D_phi),
         D_cum_max := some (pyMax (List.zipWith (· + ·) (updPhiDmg st f).2 f.D_phi)),
         phi_deg_cum := some ((updPhiDmg st f).1.getD
           (pyIndex (List.zipWith (· + ·) (updPhiDmg st f).2 f.D_phi)
             (pyMax (List.zipWith (· + ·) (updPhiDmg st f).2 f.D_phi))) 0) }) := by
  rw [updateCumulative, if_neg (by simp [h1, h2])]
  rfl

theorem remapBins_length (oldPhi oldDmg newPhi : List ℚ) :
    (remapBins oldPhi oldDmg newPhi).length = newPhi.length := by
  rw [remapBins]
  split <;> simp

theorem updPhiDmg_fst_ne_nil (st : LoggerState) (f : Fatigue)
    (hp : st.phi ≠ []) (h1 : f.phi_deg_list ≠ []) : (updPhiDmg st f).1 ≠ [] := by
  rw [updPhiDmg]
  split
  · exact h1
  · exact hp

theorem updPhiDmg_snd_length (st : LoggerState) (f : Fatigue) (hl : st.phi.length = st.dmg.length) :
    (updPhiDmg st f).2.length = (updPhiDmg st f).1.length := by
  rw [updPhiDmg]
  split
  · simp [remapBins_length]
  · exact hl.symm

theorem writeCumulative_done_primary (fs : FileState) (p : FileRec) :
    (writeCumulative fs p CrashPoint.done).primary = FileContent.valid p := rfl

theorem wf_updStep (st : LoggerState) (f : Fatigue) (hw : wfLogger st) (hf : wfFatigue f) :
    wfLogger (updStep st f) := by
  obtain ⟨hp, hd, hl, hfs⟩ := hw
  by_cases hemp : f.phi_deg_list = [] ∨ f.D_phi = []
  · rw [updStep, updateCumulative_eq_of_empty st f CrashPoint.done hemp]
    exact ⟨hp, hd, hl, hfs⟩
  · push_neg at hemp
    obtain ⟨h1, h2⟩ := hemp
    rw [updStep, updateCumulative_eq st f CrashPoint.done h1 h2]
    have hlen2 : (List.zipWith (· + ·) (updPhiDmg st f).2 f.D_phi).length =
        (updPhiDmg st f).1.length := by
      rw [List.length_zipWith, updPhiDmg_snd_length st f hl, updPhiDmg]
      simp only [wfFatigue] at hf
      split
      · dsimp only
        omega
      · rename_i hcond
        push_neg at hcond
        dsimp only
        omega
    have hne1 : (updPhiDmg st f).1 ≠ [] := updPhiDmg_fst_ne_nil st f hp h1
    refine ⟨hne1, ?_, ?_, ?_⟩
    · intro hnil
      apply hne1
      have := congrArg List.length hnil
      rw [hlen2] at this
      exact List.length_eq_zero.mp this
    · exact hlen2.symm
    · exact writeCumulative_done_primary _ _

theorem wf_foldl (us : List Fatigue) : ∀ st0 : LoggerState,
    wfLogger st0 → (∀ u ∈ us, wfFatigue u) → wfLogger (us.foldl updStep st0) := by
  induction us with
  | nil => intro st0 h0 _; simpa using h0
  | cons u us ih =>
      intro st0 h0 hus
      rw [List.foldl_cons]
      exact ih (updStep st0 u) (wf_updStep st0 u h0 (hus u (by simp)))
        fun v hv => hus v (by simp [hv])

theorem loadedDmg_primary_valid (fs : FileState) (r : FileRec)
    (hp : fs.primary = FileContent.valid r) (h1 : r.phi ≠ []) (h2 : r.dmg ≠ [])
    (h3 : r.phi.length = r.dmg.length) :
    loadedDmg fs 5 = r.dmg := by
  rw [loadedDmg, hp]
  simp [tryLoadJson, h1, h2, h3]

theorem updateCumulative_primary_stable (st : LoggerState) (f : Fatigue) (c : CrashPoint)
    (hc : c ≠ CrashPoint.done) :
    (updateCumulative st f c).1.fs.primary = st.fs.primary := by
  by_cases hemp : f.phi_deg_list = [] ∨ f.D_phi = []
  · rw [updateCumulative_eq_of_empty st f c hemp]
  · push_neg at hemp
    rw [updateCumulative_eq st f c hemp.1 hemp.2]
    cases c with
    | done => exact absurd rfl hc
    | preBackup => rfl
    | midBackup =>
        show (if st.fs.primary ≠ FileContent.absent
            then { st.fs with backup := FileContent.corrupt } else st.fs).primary = _
        split <;> rfl
    | preTmp =>
        show (if st.fs.primary ≠ FileContent.absent
            then { st.fs with backup := st.fs.primary } else st.fs).primary = _
        split <;> rfl
    | midTmp =>
        show ({ (if st.fs.primary ≠ FileContent.absent
            then { st.fs with backup := st.fs.primary } else st.fs) with
              tmp := FileContent.corrupt }).primary = _
        split <;> rfl
    | preRename =>
        show ({ (if st.fs.primary ≠ FileContent.absent
            then { st.fs with backup := st.fs.primary } else st.fs) with
              tmp := FileContent.valid _ }).primary = _
        split <;> rfl

/-- C1 (amended): for every sequence of completed `update_cumulative`
calls in which each call's `phi_deg_list` and `D_phi` have equal length,
followed by one more such call whose write protocol crashes at an
arbitrary point (before the backup copy, mid-backup, before the `.tmp`
write, mid-`.tmp`-write, before the atomic rename, or right after it),
re-initializing the logger loads a `D_phi_cum` equal to either the
pre-update or the post-update vector.  (The original claim, quantified
over arbitrary updates, fails when an update has `phi_deg_list` and
`D_phi` of different lengths — see the counterexample.) -/
theorem damage_crash_safe_load (st0 : LoggerState) (us : List Fatigue) (f : Fatigue)
    (c : CrashPoint) (h0 : wfLogger st0) (hus : ∀ u ∈ us, wfFatigue u) (hf : wfFatigue f) :
    loadedDmg ((updateCumulative (us.foldl updStep st0) f c).1.fs) 5 =
        (us.foldl updStep st0).dmg ∨
    loadedDmg ((updateCumulative (us.foldl updStep st0) f c).1.fs) 5 =
        (updStep (us.foldl updStep st0) f).dmg := by
  have hwf : wfLogger (us.foldl updStep st0) := wf_foldl us st0 h0 hus
  set st := us.foldl updStep st0 with hst
  obtain ⟨hp, hd, hl, hfs⟩ := hwf
  by_cases hc : c = CrashPoint.done
  · subst hc
    right
    have hpost : wfLogger (updStep st f) := wf_updStep st f ⟨hp, hd, hl, hfs⟩ hf
    obtain ⟨hp2, hd2, hl2, hfs2⟩ := hpost
    exact loadedDmg_primary_valid _ _ hfs2 hp2 hd2 hl2
  · left
    have hstable := updateCumulative_primary_stable st f c hc
    exact loadedDmg_primary_valid _ (payloadOf st.phi st.dmg)
      (hstable.trans hfs) hp hd hl

unseal Rat.sub Rat.add Rat.mul Rat.inv in
/-- Witness for C1: one completed update then a crash in the middle of
the `.tmp` write; the load recovers the pre-crash vector. -/
theorem damage_crash_safe_load_witness :
    wfLogger ⟨[0, 180], [1, 1], ⟨.valid (payloadOf [0, 180] [1, 1]), .absent, .absent⟩⟩ ∧
    (∀ u ∈ [(⟨[0, 180], [2, 0], none, none, none⟩ : Fatigue)], wfFatigue u) ∧
    wfFatigue (⟨[0, 180], [1, 3], none, none, none⟩ : Fatigue) ∧
    (loadedDmg ((updateCumulative
          ([(⟨[0, 180], [2, 0], none, none, none⟩ : Fatigue)].foldl updStep
            ⟨[0, 180], [1, 1], ⟨.valid (payloadOf [0, 180] [1, 1]), .absent, .absent⟩⟩)
          ⟨[0, 180], [1, 3], none, none, none⟩ CrashPoint.midTmp).1.fs) 5 =
        ([(⟨[0, 180], [2, 0], none, none, none⟩ : Fatigue)].foldl updStep
          ⟨[0, 180], [1, 1], ⟨.valid (payloadOf [0, 180] [1, 1]), .absent, .absent⟩⟩).dmg ∨
      loadedDmg ((updateCumulative
          ([(⟨[0, 180], [2, 0], none, none, none⟩ : Fatigue)].foldl updStep
            ⟨[0, 180], [1, 1], ⟨.valid (payloadOf [0, 180] [1, 1]), .absent, .absent⟩⟩)
          ⟨[0, 180], [1, 3], none, none, none⟩ CrashPoint.midTmp).1.fs) 5 =
        (updStep
          ([(⟨[0, 180], [2, 0], none, none, none⟩ : Fatigue)].foldl updStep
            ⟨[0, 180], [1, 1], ⟨.valid (payloadOf [0, 180] [1, 1]), .absent, .absent⟩⟩)
          ⟨[0, 180], [1, 3], none, none, none⟩).dmg) :=
  ⟨by decide, by decide, by decide,
    damage_crash_safe_load
      ⟨[0, 180], [1, 1], ⟨.valid (payloadOf [0, 180] [1, 1]), .absent, .absent⟩⟩
      [⟨[0, 180], [2, 0], none, none, none⟩]
      ⟨[0, 180], [1, 3], none, none, none⟩ CrashPoint.midTmp
      (by decide) (by decide) (by decide)⟩

unseal Rat.sub Rat.add Rat.mul Rat.inv in
/-- Counterexample to C1 as stated: from a well-formed logger state with
`D_phi_cum = [1, 1]` over `[0, 180]`, one update with
`phi_deg_list = [0, 180]` but `D_phi = [5]` (mismatched lengths) whose
write completes (crash just after the atomic rename) persists a record
with a 2-entry `phi_deg_list` and a 1-entry `D_phi_cum`; re-loading then
rejects the record and resets to the 72 default zero bins — neither the
pre-update vector `[1, 1]` nor the post-update vector `[6]`. -/
theorem damage_crash_safe_load_cex :
    wfLogger ⟨[0, 180], [1, 1], ⟨.valid (payloadOf [0, 180] [1, 1]), .absent, .absent⟩⟩ ∧
    ¬ (loadedDmg ((updateCumulative
          ⟨[0, 180], [1, 1], ⟨.valid (payloadOf [0, 180] [1, 1]), .absent, .absent⟩⟩
          ⟨[0, 180], [5], none, none, none⟩ CrashPoint.done).1.fs) 5 =
        (⟨[0, 180], [1, 1], ⟨.valid (payloadOf [0, 180] [1, 1]), .absent, .absent⟩⟩
          : LoggerState).dmg ∨
      loadedDmg ((updateCumulative
          ⟨[0, 180], [1, 1], ⟨.valid (payloadOf [0, 180] [1, 1]), .absent, .absent⟩⟩
          ⟨[0, 180], [5], none, none, none⟩ CrashPoint.done).1.fs) 5 =
        (updStep ⟨[0, 180], [1, 1], ⟨.valid (payloadOf [0, 180] [1, 1]), .absent, .absent⟩⟩
          ⟨[0, 180], [5], none, none, none⟩).dmg) := by
  decide

/-! ## C5 — directional-damage bin layout -/

theorem fatigue_arange_len :
    (⌈(2 * Real.pi + Real.pi / 36 - 0) / (Real.pi / 36)⌉).toNat = 73 := by
  have hpi := Real.pi_ne_zero
  have h : (2 * Real.pi + Real.pi / 36 - 0) / (Real.pi / 36) = 73 := by
    field_simp
    ring
  rw [h]
  norm_num
  rfl

theorem fatiguePhiDeg_eq :
    fatiguePhiDegList = (List.range 72).map fun (b : ℕ) => (b : ℝ) * 5 + 5 / 2 := by
  have hpi := Real.pi_ne_zero
  rw [fatiguePhiDegList, fatiguePhiCenter, arangeReal]
  rw [fatigue_arange_len]
  rw [show (73 : ℕ) = 72 + 1 from rfl, List.range_succ, List.map_append]
  simp only [List.map_cons, List.map_nil, List.dropLast_concat, List.map_map]
  refine List.map_congr_left fun b hb => ?_
  simp only [Function.comp]
  field_simp
  ring

unseal Rat.sub Rat.add Rat.mul Rat.inv in
theorem defaultBins_phi_eq :
    (defaultBins 5).1 = (List.range 72).map fun (i : ℕ) => (i : ℚ) * 5 := by
  decide

/-- C5 (amended): both layouts have `B = 72` bins, but they do not
coincide: `DamageLogger._default_bins` places bin `b` at `b·5°`
(`0, 5, 10, …`), while `fatigue_damage`'s `phi_deg_list` places bin `b`
at `b·5° + 2.5°` (`2.5, 7.5, …`) — the two layouts are offset by half a
bin. -/
theorem bin_layout_offset :
    (defaultBins 5).1 = (List.range 72).map (fun (i : ℕ) => (i : ℚ) * 5) ∧
    fatiguePhiDegList = (List.range 72).map (fun (b : ℕ) => (b : ℝ) * 5 + 5 / 2) :=
  ⟨defaultBins_phi_eq, fatiguePhiDeg_eq⟩

/-- Counterexample to C5 as stated: bin 0 of `fatigue_damage`'s
`phi_deg_list` has center `2.5°`, not `0·5° = 0°`. -/
theorem bin_layout_offset_cex :
    fatiguePhiDegList.getD 0 0 = 5 / 2 ∧ ((5 : ℝ) / 2) ≠ (0 : ℝ) := by
  constructor
  · rw [fatiguePhiDeg_eq]
    simp [List.getD_eq_getElem?_getD, List.getElem?_map, List.getElem?_range]
  · norm_num

/-! ## C7 — ASME S-N curve -/

/-- C7: `asme_sn_cycles` returns infinity for `Sa ≤ 0`; for `Sa > 0` it
computes `Y = log10(28300·Sa/et)`, selects the high-cycle polynomial
formula exactly when `10^Y ≥ 20` (equivalently `28300·Sa/et ≥ 20`, since
`10^(log10 z) = z` for `z > 0`) and the rational formula in `Y²,Y⁴,Y⁶`
otherwise, and returns `N = 10^X`. -/
theorem asme_sn_spec (Sa et : ℝ) (het : 0 < et) :
    (Sa ≤ 0 → asme_sn_cycles Sa et = ⊤) ∧
    (0 < Sa → asme_sn_cycles Sa et =
      (((10 : ℝ) ^ (if 20 ≤ 28300 * Sa / et
          then asmeXhigh (Real.logb 10 (28300 * Sa / et))
          else asmeXlow (Real.logb 10 (28300 * Sa / et))) : ℝ) : EReal)) := by
  constructor
  · intro hle
    rw [asme_sn_cycles, if_pos hle]
  · intro hpos
    have hz : (0 : ℝ) < 28300 * Sa / et := by positivity
    have hlogb : (10 : ℝ) ^ Real.logb 10 (28300 * Sa / et) = 28300 * Sa / et :=
      Real.rpow_logb (by norm_num) (by norm_num) hz
    rw [asme_sn_cycles, if_neg (not_le.mpr hpos), asmeX]
    rw [hlogb]

/-- Witness for C7 at `Sa = 1`, `et = 1`. -/
theorem asme_sn_spec_witness :
    (0 : ℝ) < 1 ∧
    (((1 : ℝ) ≤ 0 → asme_sn_cycles 1 1 = ⊤) ∧
      (0 < (1 : ℝ) → asme_sn_cycles 1 1 =
        (((10 : ℝ) ^ (if 20 ≤ 28300 * (1 : ℝ) / 1
            then asmeXhigh (Real.logb 10 (28300 * (1 : ℝ) / 1))
            else asmeXlow (Real.logb 10 (28300 * (1 : ℝ) / 1))) : ℝ) : EReal))) :=
  ⟨by norm_num, asme_sn_spec 1 1 (by norm_num)⟩

/-! ## C8 — stress-range admission window -/

theorem dkStep_eq (et acc : ℝ) (sn : ℝ × ℝ) :
    dkStep et acc sn =
      acc + (if 48 ≤ sn.1 ∧ sn.1 ≤ 3999
        then sn.2 / (10 : ℝ) ^ asmeX sn.1 et else 0) := by
  simp only [dkStep]
  by_cases h0 : sn.1 ≤ 0
  · rw [if_pos h0, if_neg (fun h => by linarith [h.1]), add_zero]
  · rw [if_neg h0]
    by_cases hout : sn.1 < 48 ∨ 3999 < sn.1
    · rw [if_pos hout, if_neg (fun hc => by
        rcases hout with h | h
        · linarith [hc.1]
        · linarith [hc.2]), add_zero]
    · push_neg at hout
      rw [if_neg (show ¬ (sn.1 < 48 ∨ 3999 < sn.1) by push_neg; exact hout),
        if_pos (show (48 : ℝ) ≤ sn.1 ∧ sn.1 ≤ 3999 from ⟨hout.1, hout.2⟩)]
      have hN : asme_sn_cycles sn.1 et = (((10 : ℝ) ^ asmeX sn.1 et : ℝ) : EReal) := by
        rw [asme_sn_cycles, if_neg h0]
      have hpos : (0 : ℝ) < (10 : ℝ) ^ asmeX sn.1 et :=
        Real.rpow_pos_of_pos (by norm_num) _
      rw [hN]
      rw [if_pos (show ((((10 : ℝ) ^ asmeX sn.1 et : ℝ) : EReal) ≠ 0 ∧
            (0 : EReal) < (((10 : ℝ) ^ asmeX sn.1 et : ℝ) : EReal)) from
          ⟨by simp only [ne_eq, EReal.coe_eq_zero]; exact ne_of_gt hpos,
            EReal.coe_pos.mpr hpos⟩)]
      rw [pydivFin, if_neg (by
        push_neg
        exact ⟨EReal.coe_ne_top _, EReal.coe_ne_bot _⟩)]
      rw [EReal.toReal_coe]

theorem binDamage_foldl (et : ℝ) (l : List (ℝ × ℝ)) (a : ℝ) :
    l.foldl (dkStep et) a =
      a + (l.map fun sn =>
        if 48 ≤ sn.1 ∧ sn.1 ≤ 3999 then sn.2 / (10 : ℝ) ^ asmeX sn.1 et else 0).sum := by
  induction l generalizing a with
  | nil => simp
  | cons x xs ih =>
      rw [List.foldl_cons, ih, dkStep_eq]
      simp [add_assoc]

/-- C8: in the per-bin Miner sum of `fatigue_damage`, exactly the
half-cycles whose stress amplitude `Sa = range/2` lies in `[48, 3999]`
contribute `counts[i] / N(Sa[i], et)` (with `N = 10^X`, the finite ASME
value, which is positive); every other half-cycle — including those with
`Sa ≤ 0` — contributes exactly zero. -/
theorem fatigue_admission_window (et : ℝ) (ranges counts : List ℝ) :
    binDamage et ranges counts =
      (((ranges.map fun r => r / 2).zip counts).map fun sn =>
        if 48 ≤ sn.1 ∧ sn.1 ≤ 3999
        then sn.2 / (10 : ℝ) ^ asmeX sn.1 et else 0).sum := by
  rw [binDamage, binDamage_foldl, zero_add]

/-! ## C6 — decimator chunk processing -/

theorem tapsOf_ge (M : ℕ) : 31 ≤ tapsOf M := by
  rw [tapsOf]
  split <;> omega

theorem npHanning_length (M : ℕ) : (npHanning M).length = M := by
  rw [npHanning]
  split
  · rename_i h
    simp [h]
  · simp

theorem decimKernelList_length (M : ℕ) (sr er : ℝ) :
    (decimKernelList M sr er).length = tapsOf M := by
  simp only [decimKernelList]
  simp [List.length_zipWith, npHanning_length]

theorem convValid_length (x h : List ℝ) :
    (convValid x h).length = x.length + 1 - h.length := by
  simp [convValid]

theorem everyNth_length {α : Type*} :
    ∀ (l : List α) (M : ℕ), 1 ≤ M → (everyNth l M).length = (l.length + M - 1) / M := by
  intro l M
  induction l, M using everyNth.induct with
  | case1 M =>
      intro hM
      simp only [everyNth, List.length_nil]
      exact (Nat.div_eq_of_lt (by omega : 0 + M - 1 < M)).symm
  | case2 a rest M ih =>
      intro hM
      rw [everyNth]
      have ih2 := ih hM
      simp only [List.length_cons, List.length_drop] at ih2 ⊢
      have hv : (rest.length - (M - 1) + M - 1) / M = rest.length / M := by
        rcases le_or_lt (M - 1) rest.length with hle | hlt
        · congr 1
          omega
        · have h1 : rest.length - (M - 1) = 0 := by omega
          rw [h1]
          rw [Nat.div_eq_of_lt (by omega : 0 + M - 1 < M)]
          exact (Nat.div_eq_of_lt (by omega)).symm
      rw [ih2, hv, show rest.length + 1 + M - 1 = rest.length + M by omega,
        Nat.add_div_right _ (by omega : 0 < M)]

/-- C6: for every decimation factor `M > 1` and every non-empty
per-channel chunk, with the kernel `h` built by
`_build_decimation_kernel` (`T = |h| = max(31, 8M+1)` forced odd) and a
stored state of length `T − 1`, the decimator forms `x' = state ++ x`,
computes a valid-mode convolution of length `|x|`, emits
`everyNth filt M` — exactly `⌈|x|/M⌉` samples — and stores the last
`T − 1` samples of `x'` as the new state. -/
theorem decimator_chunk_step (M : ℕ) (sr er : ℝ) (state arr : List ℝ)
    (hM : 1 < M) (hst : state.length = (decimKernelList M sr er).length - 1)
    (harr : arr ≠ []) :
    buildDecimationKernel M sr er = some (decimKernelList M sr er) ∧
    (decimKernelList M sr er).length = tapsOf M ∧
    (state ++ arr).length = ((decimKernelList M sr er).length - 1) + arr.length ∧
    (convValid (state ++ arr) (decimKernelList M sr er)).length = arr.length ∧
    (onSamplesChan (decimKernelList M sr er) M state arr).1 =
      everyNth (convValid (state ++ arr) (decimKernelList M sr er)) M ∧
    ((onSamplesChan (decimKernelList M sr er) M state arr).1).length =
      (arr.length + M - 1) / M ∧
    (onSamplesChan (decimKernelList M sr er) M state arr).2 =
      (state ++ arr).drop
        ((state ++ arr).length - ((decimKernelList M sr er).length - 1)) ∧
    ((onSamplesChan (decimKernelList M sr er) M state arr).2).length =
      (decimKernelList M sr er).length - 1 := by
  have hT : (decimKernelList M sr er).length = tapsOf M := decimKernelList_length M sr er
  have hT31 : 31 ≤ (decimKernelList M sr er).length := hT ▸ tapsOf_ge M
  have harrlen : 1 ≤ arr.length := by
    cases arr with
    | nil => exact absurd rfl harr
    | cons a t => simp
  have hxlen : (state ++ arr).length = ((decimKernelList M sr er).length - 1) + arr.length := by
    simp [hst]
  have hconv : (convValid (state ++ arr) (decimKernelList M sr er)).length = arr.length := by
    rw [convValid_length, hxlen]
    omega
  have hchan : onSamplesChan (decimKernelList M sr er) M state arr =
      (everyNth (convValid (state ++ arr) (decimKernelList M sr er)) M,
        (state ++ arr).drop
          ((state ++ arr).length - ((decimKernelList M sr er).length - 1))) := by
    simp only [onSamplesChan]
    rw [if_neg (by simp [hst]), if_pos (by omega : 0 < (decimKernelList M sr er).length - 1)]
  refine ⟨by rw [buildDecimationKernel, if_neg (by omega)], hT, hxlen, hconv, ?_, ?_, ?_, ?_⟩
  · rw [hchan]
  · rw [hchan]
    simp only []
    rw [everyNth_length _ M (by omega), hconv]
  · rw [hchan]
  · rw [hchan]
    simp only [List.length_drop]
    omega

/-- Witness for C6 at `M = 2` (so `T = 31`), rates `3200 → 1600`, a
zero state of length 30 and the chunk `[1]`. -/
theorem decimator_chunk_step_witness :
    1 < 2 ∧
    (List.replicate 30 (0 : ℝ)).length = (decimKernelList 2 3200 1600).length - 1 ∧
    ([1] : List ℝ) ≠ [] ∧
    (buildDecimationKernel 2 3200 1600 = some (decimKernelList 2 3200 1600) ∧
      (decimKernelList 2 3200 1600).length = tapsOf 2 ∧
      (List.replicate 30 (0 : ℝ) ++ [1]).length =
        ((decimKernelList 2 3200 1600).length - 1) + ([1] : List ℝ).length ∧
      (convValid (List.replicate 30 (0 : ℝ) ++ [1]) (decimKernelList 2 3200 1600)).length =
        ([1] : List ℝ).length ∧
      (onSamplesChan (decimKernelList 2 3200 1600) 2 (List.replicate 30 (0 : ℝ)) [1]).1 =
        everyNth (convValid (List.replicate 30 (0 : ℝ) ++ [1])
          (decimKernelList 2 3200 1600)) 2 ∧
      ((onSamplesChan (decimKernelList 2 3200 1600) 2 (List.replicate 30 (0 : ℝ)) [1]).1).length =
        (([1] : List ℝ).length + 2 - 1) / 2 ∧
      (onSamplesChan (decimKernelList 2 3200 1600) 2 (List.replicate 30 (0 : ℝ)) [1]).2 =
        (List.replicate 30 (0 : ℝ) ++ [1]).drop
          ((List.replicate 30 (0 : ℝ) ++ [1]).length -
            ((decimKernelList 2 3200 1600).length - 1)) ∧
      ((onSamplesChan (decimKernelList 2 3200 1600) 2 (List.replicate 30 (0 : ℝ)) [1]).2).length =
        (decimKernelList 2 3200 1600).length - 1) :=
  ⟨by omega,
    by rw [decimKernelList_length]; simp [tapsOf],
    by simp,
    decimator_chunk_step 2 3200 1600 (List.replicate 30 (0 : ℝ)) [1] (by omega)
      (by rw [decimKernelList_length]; simp [tapsOf]) (by simp)⟩

/-! ## C9 — boundary behaviour of double integration -/

theorem detrendLin_single {α : Type*} [Field α] (x : α) : detrendLin [x] = [0] := by
  simp [detrendLin, polyfitLin, npMean, List.range_succ]

theorem accToDispTime_single {α : Type*} [LinearOrderedField α] (a fs : α)
    (hfs : ¬ fs ≤ 0) : accToDispTime [a] fs = [0] := by
  rw [accToDispTime, if_neg (by simp), if_neg hfs]
  simp [npMean, npCumsum, detrendLin_single]

theorem accToDispFft_single (a fs : ℝ) (hfs : ¬ fs ≤ 0) : accToDispFft [a] fs = [0] := by
  rw [accToDispFft, if_neg (by simp), if_neg hfs]
  simp [dft, idft, List.range_succ, detrendLin_single]

theorem accToDispTime_nil {α : Type*} [LinearOrderedField α] (fs : α) :
    accToDispTime ([] : List α) fs = [] := by
  rw [accToDispTime, if_pos rfl]

theorem accToDispFft_nil (fs : ℝ) : accToDispFft [] fs = [] := by
  rw [accToDispFft, if_pos rfl]

/-- C9 (amended): for both the `"fft"` and `"time"` methods (and any
method string), `acc_to_disp` on an empty array returns an empty array;
on a single-sample input with positive sampling rate it returns the
single-element zero array `[0.0]` — the de-mean/DC-suppression and
detrend zero the sample — not the input unchanged.  (The input comes
back unchanged only when it is already `[0.0]` or when `fs ≤ 0`.) -/
theorem acc_to_disp_boundary (fs : ℝ) (method : String) (a : ℝ) (hfs : 0 < fs) :
    accToDisp [] fs method = [] ∧ accToDisp [a] fs method = [0] := by
  constructor
  · rw [accToDisp]
    split
    · exact accToDispTime_nil fs
    · exact accToDispFft_nil fs
  · rw [accToDisp]
    split
    · exact accToDispTime_single a fs (not_le.mpr hfs)
    · exact accToDispFft_single a fs (not_le.mpr hfs)

/-- Witness for C9 at `fs = 1`, method `"fft"`, sample `5`. -/
theorem acc_to_disp_boundary_witness :
    (0 : ℝ) < 1 ∧
    (accToDisp [] 1 "fft" = [] ∧ accToDisp [(5 : ℝ)] 1 "fft" = [0]) :=
  ⟨by norm_num, acc_to_disp_boundary 1 "fft" 5 (by norm_num)⟩

/-- Counterexample to C9 as stated: the single-sample input `[5.0]` at
`fs = 100` with the default `"fft"` method returns `[0.0]`, not `[5.0]`
unchanged. -/
theorem acc_to_disp_boundary_cex : accToDisp [(5 : ℝ)] 100 "fft" ≠ [5] := by
  have h : accToDisp [(5 : ℝ)] 100 "fft" = [0] := by
    rw [accToDisp, if_neg (by decide)]
    exact accToDispFft_single 5 100 (by norm_num)
  rw [h]
  simp only [ne_eq, List.cons.injEq, and_true]
  norm_num

end CDAQ

